import Mathlib

/-!
# Verification of the envelope-encryption engine

Shallow embedding of the crypto core of the repository
(`packages/crypto/src/utils.ts`, `packages/crypto/src/keys.ts`,
`packages/crypto/src/envelope.ts`, and the decrypt-response assembly of
`apps/api/src/routes/tx.ts`), together with proofs about it.

Two views of the data are used, mirroring the two layers of the source:

* the *hex view*: records carry hexadecimal `String` fields exactly as in
  `TxSecureRecord`; `validateHex` / `validateRecord` are translated
  literally from `utils.ts` / `envelope.ts`.
* the *byte view*: records carry decoded byte sequences.  The external
  AES-256-GCM primitive (`node:crypto`, not part of the repository) is
  modelled from the spec as an ideal AEAD over symbolic bytes: a ciphertext
  byte is a constructor application recording the key, nonce, plaintext and
  position, and the authentication tag is a sequence of 16 symbolic bytes
  that bind key, nonce, AAD and ciphertext, so that decryption succeeds
  exactly when all of them match bit-for-bit (the spec's description of an
  AEAD tag: "verified during decryption to detect tampering").  Randomness
  (the DEK and the two nonces) and the clock are passed explicitly.

Payloads are identified with their canonical JSON byte serialization
(spec §4.3 step 3: "Serialize `payload` to a canonical byte form"); the
external JSON codec is then the identity on this domain.
-/

namespace Crypto

/-- Error taxonomy of the engine (spec §7).  The source throws `Error`s with
distinguishing messages; each throw site is mapped to its kind. -/
inductive CryptoError where
  | malformedEncoding (label : String)
  | lengthMismatch (label : String) (expected actual : Nat)
  | unknownKeyVersion (requested : Nat)
  | authenticationFailed
  | corruptPayload
  | noKeysConfigured
  deriving DecidableEq, Repr

/-! ## Symbolic bytes and the ideal AEAD model -/

/-- Symbolic bytes.  A concrete octet is `atom b`; `cons` builds the
structured bytes produced by the ideal AEAD below. -/
inductive Sexp where
  | atom : Nat → Sexp
  | cons : Sexp → Sexp → Sexp
  deriving DecidableEq, Repr

/-- A byte sequence in the symbolic model. -/
abbrev ByteS := List Sexp

/-- Pack a list of symbolic bytes into one symbolic value (injectively). -/
def listS (l : List Sexp) : Sexp := l.foldr .cons (.atom 0)

/-- Unpack `listS`. -/
def unlistS : Sexp → List Sexp
  | .atom _ => []
  | .cons a r => a :: unlistS r

/-- Lift raw octets (e.g. a decoded hex key) into symbolic bytes. -/
def rawBytes (l : List Nat) : ByteS := l.map Sexp.atom

-- Constants from `envelope.ts`.
def DEK_BYTES : Nat := 32
def NONCE_BYTES : Nat := 12
def TAG_BYTES : Nat := 16

/-- Modelled from the spec: byte `i` of the keystream-encrypted ciphertext
produced by the external AES-256-GCM primitive for `data` under
`(key, nonce)`. -/
def encByte (key nonce data : ByteS) (i : Nat) : Sexp :=
  .cons (.atom 1)
    (.cons (listS key) (.cons (listS nonce) (.cons (listS data) (.atom i))))

/-- Modelled from the spec: byte `i` of the 16-byte GCM authentication tag,
binding key, nonce, AAD and ciphertext. -/
def tagByte (key nonce aad ct : ByteS) (i : Nat) : Sexp :=
  .cons (.atom 2)
    (.cons (listS key)
      (.cons (listS nonce) (.cons (listS aad) (.cons (listS ct) (.atom i)))))

/-- Ciphertext of `data` under `(key, nonce)` in the ideal AEAD model
(same length as the plaintext, as in GCM). -/
def ctBytes (key nonce data : ByteS) : ByteS :=
  (List.range data.length).map (encByte key nonce data)

/-- The 16-byte authentication tag in the ideal AEAD model. -/
def tagBytes (key nonce aad ct : ByteS) : ByteS :=
  (List.range TAG_BYTES).map (tagByte key nonce aad ct)

/-- Modelled from the spec: CTR-mode inversion of one ciphertext byte under
`(key, nonce)`; bytes not produced under this key and nonce decrypt to
garbage (`atom 0`). -/
def decByte (key nonce : ByteS) (b : Sexp) : Sexp :=
  match b with
  | .cons (.atom 1) (.cons k (.cons n (.cons d (.atom i)))) =>
      if k = listS key ∧ n = listS nonce then (unlistS d).getD i (.atom 0)
      else .atom 0
  | _ => .atom 0

/-- Bytewise ciphertext inversion. -/
def decBytes (key nonce ct : ByteS) : ByteS := ct.map (decByte key nonce)

/-! ## Hex codec (`utils.ts`) -/

/-- `[0-9a-f]` case-insensitively, as in the regex of `validateHex`. -/
def isHexDigit (c : Char) : Bool :=
  ('0' ≤ c && c ≤ '9') || ('a' ≤ c && c ≤ 'f') || ('A' ≤ c && c ≤ 'F')

/-- Value of one hex digit. -/
def hexDigitVal (c : Char) : Nat :=
  if '0' ≤ c ∧ c ≤ '9' then c.toNat - '0'.toNat
  else if 'a' ≤ c ∧ c ≤ 'f' then c.toNat - 'a'.toNat + 10
  else if 'A' ≤ c ∧ c ≤ 'F' then c.toNat - 'A'.toNat + 10
  else 0

/-- Decode hex digit pairs into bytes (`Buffer.from(value, "hex")` on a
validated even-length string). -/
def hexPairsToBytes : List Char → List Nat
  | [] => []
  | [_] => []
  | hi :: lo :: rest => (16 * hexDigitVal hi + hexDigitVal lo) :: hexPairsToBytes rest

/-- `validateHex` from `utils.ts`: well-formed hex (possibly empty, even
length) decoded to bytes, with an optional exact byte-length check. -/
def validateHex (value label : String) (expectedBytes : Option Nat) :
    Except CryptoError (List Nat) :=
  if ¬ (value.data.all isHexDigit = true) ∨ value.length % 2 ≠ 0 then
    .error (.malformedEncoding label)
  else
    match expectedBytes with
    | some expected =>
        if (hexPairsToBytes value.data).length ≠ expected then
          .error (.lengthMismatch label expected (hexPairsToBytes value.data).length)
        else .ok (hexPairsToBytes value.data)
    | none => .ok (hexPairsToBytes value.data)

theorem validateHex_none_def (s L : String) :
    validateHex s L none =
      if ¬ (s.data.all isHexDigit = true) ∨ s.length % 2 ≠ 0 then
        .error (.malformedEncoding L)
      else .ok (hexPairsToBytes s.data) := by
  simp only [validateHex]

theorem validateHex_some_def (s L : String) (n : Nat) :
    validateHex s L (some n) =
      if ¬ (s.data.all isHexDigit = true) ∨ s.length % 2 ≠ 0 then
        .error (.malformedEncoding L)
      else if (hexPairsToBytes s.data).length ≠ n then
        .error (.lengthMismatch L n (hexPairsToBytes s.data).length)
      else .ok (hexPairsToBytes s.data) := by
  simp only [validateHex]

/-! ## Records -/

/-- `TxSecureRecord` in the hex view (`types.ts`): all binary fields are
hex strings. -/
structure TxSecureRecordHex where
  id : String
  partyId : String
  createdAt : String
  payload_nonce : String
  payload_ct : String
  payload_tag : String
  dek_wrap_nonce : String
  dek_wrapped : String
  dek_wrap_tag : String
  alg : String
  mk_version : Nat
  deriving DecidableEq, Repr

/-- `validateRecord` from `envelope.ts`, literally: the six hex fields in
source order, with length expectations only for the nonces and the tags. -/
def validateRecord (record : TxSecureRecordHex) : Except CryptoError Unit :=
  match validateHex record.payload_nonce "payload_nonce" (some NONCE_BYTES) with
  | .error e => .error e
  | .ok _ =>
  match validateHex record.payload_ct "payload_ct" none with
  | .error e => .error e
  | .ok _ =>
  match validateHex record.payload_tag "payload_tag" (some TAG_BYTES) with
  | .error e => .error e
  | .ok _ =>
  match validateHex record.dek_wrap_nonce "dek_wrap_nonce" (some NONCE_BYTES) with
  | .error e => .error e
  | .ok _ =>
  match validateHex record.dek_wrapped "dek_wrapped" none with
  | .error e => .error e
  | .ok _ =>
  match validateHex record.dek_wrap_tag "dek_wrap_tag" (some TAG_BYTES) with
  | .error e => .error e
  | .ok _ => .ok ()

/-- `TxSecureRecord` in the byte view: the same record after hex decoding. -/
structure TxSecureRecord where
  id : String
  partyId : String
  createdAt : String
  payload_nonce : ByteS
  payload_ct : ByteS
  payload_tag : ByteS
  dek_wrap_nonce : ByteS
  dek_wrapped : ByteS
  dek_wrap_tag : ByteS
  alg : String
  mk_version : Nat
  deriving DecidableEq, Repr

/-- Byte-view image of `validateRecord`: hex well-formedness is vacuous on
already-decoded bytes, the exact length checks remain (nonces 12 bytes,
tags 16 bytes; no length constraint on `payload_ct` or `dek_wrapped`). -/
def validateRecordBytes (record : TxSecureRecord) : Except CryptoError Unit :=
  if record.payload_nonce.length ≠ NONCE_BYTES then
    .error (.lengthMismatch "payload_nonce" NONCE_BYTES record.payload_nonce.length)
  else if record.payload_tag.length ≠ TAG_BYTES then
    .error (.lengthMismatch "payload_tag" TAG_BYTES record.payload_tag.length)
  else if record.dek_wrap_nonce.length ≠ NONCE_BYTES then
    .error (.lengthMismatch "dek_wrap_nonce" NONCE_BYTES record.dek_wrap_nonce.length)
  else if record.dek_wrap_tag.length ≠ TAG_BYTES then
    .error (.lengthMismatch "dek_wrap_tag" TAG_BYTES record.dek_wrap_tag.length)
  else .ok ()

/-! ## Key registry (`keys.ts`) -/

/-- `KeyRegistry`: version → master key.  The JS object is modelled as an
association list in which a later binding for the same version overwrites
an earlier one (`regLookup` prefers later entries). -/
abbrev KeyRegistry := List (Nat × ByteS)

/-- Property lookup on the registry object; the last assignment wins, as for
repeated `registry[version] = ...` assignments in JS. -/
def regLookup : KeyRegistry → Nat → Option ByteS
  | [], _ => none
  | (w, k) :: rest, v =>
      match regLookup rest v with
      | some k' => some k'
      | none => if w = v then some k else none

/-- The version numbers present (`Object.keys(registry)`). -/
def regVersions (registry : KeyRegistry) : List Nat := registry.map Prod.fst

/-- `getLatestVersion` from `keys.ts`: `Math.max` over the version numbers
(the registry is non-empty whenever the source reaches this call). -/
def getLatestVersion (registry : KeyRegistry) : Nat :=
  (regVersions registry).foldr max 0

/-- `getKey` from `keys.ts`: look the version up, failing with
`UnknownKeyVersion` when it is absent. -/
def getKey (registry : KeyRegistry) (version : Nat) : Except CryptoError ByteS :=
  match regLookup registry version with
  | some key => .ok key
  | none => .error (.unknownKeyVersion version)

/-- Decimal value of a digit string (`parseInt(match[1], 10)`). -/
def parseDigits (cs : List Char) : Nat :=
  cs.foldl (fun a c => a * 10 + (c.toNat - 48)) 0

/-- The regex `/^MASTER_KEY_V(\d+)$/` of `buildKeyRegistry`: the version
number when `name` matches, `none` otherwise. -/
def versionedKeyName (name : String) : Option Nat :=
  let cs := name.data
  if cs.take 12 = "MASTER_KEY_V".data ∧ cs.drop 12 ≠ [] ∧
      (cs.drop 12).all Char.isDigit = true then
    some (parseDigits (cs.drop 12))
  else none

/-- The scanning loop of `buildKeyRegistry`: entries are processed in
order, an entry whose name matches the versioned pattern and whose value is
truthy (non-empty) is validated as 32 bytes of hex and assigned; the first
invalid key aborts the build. -/
def buildEntries : List (String × String) → Except CryptoError KeyRegistry
  | [] => .ok []
  | (name, value) :: rest =>
      match versionedKeyName name with
      | some version =>
          if value ≠ "" then
            match validateHex value ("MASTER_KEY_V" ++ toString version) (some 32) with
            | .error e => .error e
            | .ok bytes =>
                match buildEntries rest with
                | .error e => .error e
                | .ok reg => .ok ((version, rawBytes bytes) :: reg)
          else buildEntries rest
      | none => buildEntries rest

/-- Configuration lookup (`env.MASTER_KEY`). -/
def envLookup (env : List (String × String)) (name : String) : Option String :=
  (env.find? (fun p => p.1 = name)).map Prod.snd

/-- `buildKeyRegistry` from `keys.ts`: scan for `MASTER_KEY_V<n>` entries;
if none matched, fall back to a truthy `MASTER_KEY` as version 1; fail with
`NoKeysConfigured` when the registry would be empty. -/
def buildKeyRegistry (env : List (String × String)) : Except CryptoError KeyRegistry :=
  match buildEntries env with
  | .error e => .error e
  | .ok reg =>
      if reg = [] then
        match envLookup env "MASTER_KEY" with
        | some v =>
            if v ≠ "" then
              match validateHex v "MASTER_KEY" (some 32) with
              | .error e => .error e
              | .ok bytes => .ok [(1, rawBytes bytes)]
            else .error .noKeysConfigured
        | none => .error .noKeysConfigured
      else .ok reg

/-! ## Envelope engine (`envelope.ts`) -/

/-- Result triple of `aesGcmEncrypt` (hex strings in the source, decoded
byte sequences here). -/
structure EncryptResult where
  nonce : ByteS
  ct : ByteS
  tag : ByteS
  deriving DecidableEq, Repr

/-- The randomness drawn by one `envelopeEncrypt` call (`randomBytes`):
the fresh DEK and the two fresh nonces, passed explicitly. -/
structure EncRandom where
  dek : ByteS
  payloadNonce : ByteS
  dekNonce : ByteS
  deriving DecidableEq, Repr

/-- Well-formed randomness: `randomBytes(n)` always returns `n` bytes. -/
def EncRandom.WF (r : EncRandom) : Prop :=
  r.dek.length = DEK_BYTES ∧ r.payloadNonce.length = NONCE_BYTES ∧
    r.dekNonce.length = NONCE_BYTES

instance (r : EncRandom) : Decidable r.WF := by
  unfold EncRandom.WF; infer_instance

/-- `aesGcmEncrypt` from `envelope.ts` over the ideal AEAD model; the
freshly drawn nonce is an explicit argument. -/
def aesGcmEncrypt (key data aad nonce : ByteS) : EncryptResult :=
  let ct := ctBytes key nonce data
  { nonce := nonce, ct := ct, tag := tagBytes key nonce aad ct }

/-- `aesGcmDecrypt` from `envelope.ts`: validate lengths (the byte-view
image of its `validateHex` calls), then authenticate and decrypt; a tag
that does not match key, nonce, AAD and ciphertext exactly fails with
`AuthenticationFailed`. -/
def aesGcmDecrypt (key nonce ct tag aad : ByteS) : Except CryptoError ByteS :=
  if nonce.length ≠ NONCE_BYTES then
    .error (.lengthMismatch "nonce" NONCE_BYTES nonce.length)
  else if tag.length ≠ TAG_BYTES then
    .error (.lengthMismatch "auth_tag" TAG_BYTES tag.length)
  else if tag = tagBytes key nonce aad ct then .ok (decBytes key nonce ct)
  else .error .authenticationFailed

/-- `Buffer.from(partyId, "utf-8")`: the AAD bytes of a party id.  The
encoding is modelled character-wise (injectively, like UTF-8). -/
def strToBytes (s : String) : ByteS := s.data.map (fun c => Sexp.atom c.toNat)

/-- Modelled from the spec: `JSON.stringify` on the payload.  Payload
values are identified with their canonical JSON byte serialization
(§4.3 step 3), so serialization is the identity on this domain. -/
def jsonStringify (payload : ByteS) : ByteS := payload

/-- Modelled from the spec: `JSON.parse` of recovered plaintext bytes
(§4.3 step 5).  On the canonical serialized forms that authenticated
decryption can produce, parsing succeeds and returns the payload. -/
def jsonParse (plaintext : ByteS) : Except CryptoError ByteS := .ok plaintext

/-- `envelopeEncrypt` from `envelope.ts`.  `rnd` is the randomness the call
draws and `now` the clock reading (`new Date().toISOString()`); the JS
exception from `getKey` on an empty registry is the `error` case. -/
def envelopeEncrypt (registry : KeyRegistry) (rnd : EncRandom)
    (id partyId : String) (payload : ByteS) (now : String) :
    Except CryptoError TxSecureRecord :=
  let mkVersion := getLatestVersion registry
  match getKey registry mkVersion with
  | .error e => .error e
  | .ok masterKey =>
      let aad := strToBytes partyId
      let plaintext := jsonStringify payload
      let payloadEnc := aesGcmEncrypt rnd.dek plaintext aad rnd.payloadNonce
      let dekEnc := aesGcmEncrypt masterKey rnd.dek aad rnd.dekNonce
      .ok {
        id := id, partyId := partyId, createdAt := now,
        payload_nonce := payloadEnc.nonce,
        payload_ct := payloadEnc.ct,
        payload_tag := payloadEnc.tag,
        dek_wrap_nonce := dekEnc.nonce,
        dek_wrapped := dekEnc.ct,
        dek_wrap_tag := dekEnc.tag,
        alg := "AES-256-GCM", mk_version := mkVersion }

/-- `envelopeDecrypt` from `envelope.ts`: validate, look the master key up,
unwrap the DEK, decrypt the payload, parse — in source order, failing fast
at the first violated step. -/
def envelopeDecrypt (registry : KeyRegistry) (record : TxSecureRecord) :
    Except CryptoError ByteS :=
  match validateRecordBytes record with
  | .error e => .error e
  | .ok _ =>
  match getKey registry record.mk_version with
  | .error e => .error e
  | .ok masterKey =>
      let aad := strToBytes record.partyId
      match aesGcmDecrypt masterKey record.dek_wrap_nonce record.dek_wrapped
          record.dek_wrap_tag aad with
      | .error e => .error e
      | .ok dek =>
          match aesGcmDecrypt dek record.payload_nonce record.payload_ct
              record.payload_tag aad with
          | .error e => .error e
          | .ok plaintext => jsonParse plaintext

/-- The decrypt response of `tx.ts` (`POST /tx/:id/decrypt`): the decrypted
payload together with the record's `id` and `partyId`, as in the spec's
`DecryptResult`. -/
structure DecryptResult where
  id : String
  partyId : String
  payload : ByteS
  deriving DecidableEq, Repr

/-- Assembly of the decrypt response in `tx.ts`. -/
def txDecryptResult (registry : KeyRegistry) (record : TxSecureRecord) :
    Except CryptoError DecryptResult :=
  match envelopeDecrypt registry record with
  | .error e => .error e
  | .ok payload => .ok ⟨record.id, record.partyId, payload⟩

/-! ## Basic lemmas about the symbolic AEAD model -/

theorem unlistS_listS (l : List Sexp) : unlistS (listS l) = l := by
  induction l with
  | nil => rfl
  | cons a t ih => simpa [listS, unlistS] using ih

theorem listS_inj {l1 l2 : List Sexp} (h : listS l1 = listS l2) : l1 = l2 := by
  have := congrArg unlistS h
  rwa [unlistS_listS, unlistS_listS] at this

theorem ctBytes_length (key nonce data : ByteS) :
    (ctBytes key nonce data).length = data.length := by
  simp [ctBytes]

theorem tagBytes_length (key nonce aad ct : ByteS) :
    (tagBytes key nonce aad ct).length = TAG_BYTES := by
  simp [tagBytes]

theorem decBytes_ctBytes (key nonce data : ByteS) :
    decBytes key nonce (ctBytes key nonce data) = data := by
  apply List.ext_getElem (by simp [decBytes, ctBytes])
  intro i h1 h2
  simp [decBytes, ctBytes, decByte, encByte, unlistS_listS,
    List.getElem?_eq_getElem h2]

theorem tagByte_inj {k n a c k' n' a' c' : ByteS} {i i' : Nat}
    (h : tagByte k n a c i = tagByte k' n' a' c' i') :
    k = k' ∧ n = n' ∧ a = a' ∧ c = c' ∧ i = i' := by
  simp only [tagByte, Sexp.cons.injEq, Sexp.atom.injEq] at h
  obtain ⟨-, h1, h2, h3, h4, h5⟩ := h
  exact ⟨listS_inj h1, listS_inj h2, listS_inj h3, listS_inj h4, h5⟩

theorem encByte_inj {k n d k' n' d' : ByteS} {i i' : Nat}
    (h : encByte k n d i = encByte k' n' d' i') :
    k = k' ∧ n = n' ∧ d = d' ∧ i = i' := by
  simp only [encByte, Sexp.cons.injEq, Sexp.atom.injEq] at h
  obtain ⟨-, h1, h2, h3, h4⟩ := h
  exact ⟨listS_inj h1, listS_inj h2, listS_inj h3, h4⟩

theorem tagBytes_inj {k n a c k' n' a' c' : ByteS}
    (h : tagBytes k n a c = tagBytes k' n' a' c') :
    k = k' ∧ n = n' ∧ a = a' ∧ c = c' := by
  have h0 := congrArg (fun l => l.getD 0 (.atom 0)) h
  simp only [tagBytes, TAG_BYTES] at h0
  rw [List.range_succ_eq_map, List.range_succ_eq_map] at h0
  simp only [List.map_cons, List.getD_cons_zero] at h0
  obtain ⟨hk, hn, ha, hc, -⟩ := tagByte_inj h0
  exact ⟨hk, hn, ha, hc⟩

theorem strToBytes_inj {s t : String} (h : strToBytes s = strToBytes t) :
    s = t := by
  apply String.ext
  have : ∀ {cs ds : List Char},
      cs.map (fun c => Sexp.atom c.toNat) = ds.map (fun c => Sexp.atom c.toNat) →
      cs = ds := by
    intro cs
    induction cs with
    | nil => intro ds h; cases ds with
        | nil => rfl
        | cons d ds => simp at h
    | cons c cs ih =>
        intro ds h
        cases ds with
        | nil => simp at h
        | cons d ds =>
            simp only [List.map_cons, List.cons.injEq, Sexp.atom.injEq] at h
            have hc : c = d := by
              rw [← Char.ofNat_toNat c, ← Char.ofNat_toNat d, h.1]
            exact hc ▸ congrArg (c :: ·) (ih h.2)
  exact this h

/-! ## AEAD decryption lemmas -/

theorem aesGcmDecrypt_roundtrip (key data aad nonce : ByteS)
    (hn : nonce.length = NONCE_BYTES) :
    aesGcmDecrypt key nonce (ctBytes key nonce data)
      (tagBytes key nonce aad (ctBytes key nonce data)) aad = .ok data := by
  simp [aesGcmDecrypt, hn, tagBytes_length, decBytes_ctBytes]

theorem aesGcmDecrypt_wrong_ct (key data aad nonce ct' : ByteS)
    (hn : nonce.length = NONCE_BYTES)
    (hne : ct' ≠ ctBytes key nonce data) :
    aesGcmDecrypt key nonce ct'
      (tagBytes key nonce aad (ctBytes key nonce data)) aad =
        .error .authenticationFailed := by
  have htag : tagBytes key nonce aad (ctBytes key nonce data) ≠
      tagBytes key nonce aad ct' := fun h => hne ((tagBytes_inj h).2.2.2).symm
  simp [aesGcmDecrypt, hn, tagBytes_length, htag]

theorem aesGcmDecrypt_wrong_tag (key aad nonce ct tag' : ByteS)
    (hn : nonce.length = NONCE_BYTES) (ht : tag'.length = TAG_BYTES)
    (hne : tag' ≠ tagBytes key nonce aad ct) :
    aesGcmDecrypt key nonce ct tag' aad = .error .authenticationFailed := by
  simp [aesGcmDecrypt, hn, ht, hne]

theorem aesGcmDecrypt_wrong_aad (key data aad aad' nonce : ByteS)
    (hn : nonce.length = NONCE_BYTES) (hne : aad' ≠ aad) :
    aesGcmDecrypt key nonce (ctBytes key nonce data)
      (tagBytes key nonce aad (ctBytes key nonce data)) aad' =
        .error .authenticationFailed := by
  have htag : tagBytes key nonce aad (ctBytes key nonce data) ≠
      tagBytes key nonce aad' (ctBytes key nonce data) :=
    fun h => hne ((tagBytes_inj h).2.2.1).symm
  simp [aesGcmDecrypt, hn, tagBytes_length, htag]

theorem aesGcmDecrypt_wrong_nonce (key data aad nonce nonce' : ByteS)
    (hn' : nonce'.length = NONCE_BYTES) (hne : nonce' ≠ nonce) :
    aesGcmDecrypt key nonce' (ctBytes key nonce data)
      (tagBytes key nonce aad (ctBytes key nonce data)) aad =
        .error .authenticationFailed := by
  have htag : tagBytes key nonce aad (ctBytes key nonce data) ≠
      tagBytes key nonce' aad (ctBytes key nonce data) :=
    fun h => hne ((tagBytes_inj h).2.1).symm
  simp [aesGcmDecrypt, hn', tagBytes_length, htag]

/-! ## Registry lemmas -/

theorem regLookup_of_mem {reg : KeyRegistry} {v : Nat}
    (h : v ∈ regVersions reg) : ∃ k, regLookup reg v = some k := by
  induction reg with
  | nil => simp [regVersions] at h
  | cons p rest ih =>
      obtain ⟨w, k⟩ := p
      simp only [regVersions, List.map_cons, List.mem_cons] at h
      rcases hrest : regLookup rest v with _ | k'
      · rcases h with h | h
        · exact ⟨k, by simp [regLookup, hrest, h.symm]⟩
        · obtain ⟨k', hk'⟩ := ih h
          rw [hrest] at hk'; cases hk'
      · exact ⟨k', by simp [regLookup, hrest]⟩

theorem mem_of_regLookup {reg : KeyRegistry} {v : Nat}
    (h : regLookup reg v ≠ none) : v ∈ regVersions reg := by
  induction reg with
  | nil => simp [regLookup] at h
  | cons p rest ih =>
      obtain ⟨w, k0⟩ := p
      simp only [regLookup] at h
      simp only [regVersions, List.map_cons, List.mem_cons]
      rcases hrest : regLookup rest v with _ | k'
      · rw [hrest] at h
        by_cases hw : w = v
        · exact Or.inl hw.symm
        · simp [hw] at h
      · exact Or.inr (ih (by simp [hrest]))

theorem latest_mem {reg : KeyRegistry} (h : reg ≠ []) :
    getLatestVersion reg ∈ regVersions reg := by
  induction reg with
  | nil => exact absurd rfl h
  | cons p rest ih =>
      obtain ⟨w, k⟩ := p
      rcases hrest : rest with _ | ⟨q, rest'⟩
      · simp [getLatestVersion, regVersions]
      · rw [← hrest]
        have hne : rest ≠ [] := by simp [hrest]
        have hmem := ih hne
        simp only [getLatestVersion, regVersions, List.map_cons, List.foldr_cons]
        rcases max_choice w ((rest.map Prod.fst).foldr max 0) with hmax | hmax
        · rw [hmax]; exact List.mem_cons_self _ _
        · rw [hmax]
          exact List.mem_cons_of_mem _ hmem

theorem le_latest {reg : KeyRegistry} {v : Nat} (h : v ∈ regVersions reg) :
    v ≤ getLatestVersion reg := by
  induction reg with
  | nil => simp [regVersions] at h
  | cons p rest ih =>
      obtain ⟨w, k⟩ := p
      simp only [regVersions, List.map_cons, List.mem_cons] at h
      simp only [getLatestVersion, regVersions, List.map_cons, List.foldr_cons]
      rcases h with h | h
      · exact h ▸ le_max_left _ _
      · exact le_trans (ih h) (le_max_right _ _)

theorem getKey_latest {reg : KeyRegistry} (h : reg ≠ []) :
    ∃ mk, getKey reg (getLatestVersion reg) = .ok mk := by
  obtain ⟨k, hk⟩ := regLookup_of_mem (latest_mem h)
  exact ⟨k, by simp [getKey, hk]⟩

/-! ## Normal form of an encrypted record -/

/-- The record assembled by a successful `envelopeEncrypt` call, spelt out
field by field. -/
def encRecord (rnd : EncRandom) (id partyId : String) (payload : ByteS)
    (now : String) (mk : ByteS) (v : Nat) : TxSecureRecord :=
  { id := id, partyId := partyId, createdAt := now,
    payload_nonce := rnd.payloadNonce,
    payload_ct := ctBytes rnd.dek rnd.payloadNonce payload,
    payload_tag := tagBytes rnd.dek rnd.payloadNonce (strToBytes partyId)
      (ctBytes rnd.dek rnd.payloadNonce payload),
    dek_wrap_nonce := rnd.dekNonce,
    dek_wrapped := ctBytes mk rnd.dekNonce rnd.dek,
    dek_wrap_tag := tagBytes mk rnd.dekNonce (strToBytes partyId)
      (ctBytes mk rnd.dekNonce rnd.dek),
    alg := "AES-256-GCM", mk_version := v }

theorem envelopeEncrypt_eq {reg : KeyRegistry} {mk : ByteS}
    (rnd : EncRandom) (id pid : String) (pl : ByteS) (now : String)
    (hmk : getKey reg (getLatestVersion reg) = .ok mk) :
    envelopeEncrypt reg rnd id pid pl now =
      .ok (encRecord rnd id pid pl now mk (getLatestVersion reg)) := by
  simp [envelopeEncrypt, hmk, aesGcmEncrypt, encRecord, jsonStringify]

theorem envelopeEncrypt_ok_elim {reg : KeyRegistry} {rnd : EncRandom}
    {id pid : String} {pl : ByteS} {now : String} {r : TxSecureRecord}
    (h : envelopeEncrypt reg rnd id pid pl now = .ok r) :
    ∃ mk, getKey reg (getLatestVersion reg) = .ok mk ∧
      r = encRecord rnd id pid pl now mk (getLatestVersion reg) := by
  rcases hmk : getKey reg (getLatestVersion reg) with e | mk
  · rw [envelopeEncrypt, hmk] at h; cases h
  · refine ⟨mk, rfl, ?_⟩
    rw [envelopeEncrypt_eq rnd id pid pl now hmk] at h
    exact (Except.ok.inj h).symm

theorem validateRecordBytes_encRecord {rnd : EncRandom}
    (hp : rnd.payloadNonce.length = NONCE_BYTES)
    (hd : rnd.dekNonce.length = NONCE_BYTES)
    (id pid : String) (pl : ByteS) (now : String) (mk : ByteS) (v : Nat) :
    validateRecordBytes (encRecord rnd id pid pl now mk v) = .ok () := by
  simp [validateRecordBytes, encRecord, hp, hd, tagBytes_length]

theorem envelopeDecrypt_encRecord {rnd : EncRandom}
    (hp : rnd.payloadNonce.length = NONCE_BYTES)
    (hd : rnd.dekNonce.length = NONCE_BYTES)
    (id pid : String) (pl : ByteS) (now : String)
    {reg' : KeyRegistry} {mk : ByteS} {v : Nat}
    (hk : regLookup reg' v = some mk) :
    envelopeDecrypt reg' (encRecord rnd id pid pl now mk v) = .ok pl := by
  have h1 := aesGcmDecrypt_roundtrip mk rnd.dek (strToBytes pid) rnd.dekNonce hd
  have h2 := aesGcmDecrypt_roundtrip rnd.dek pl (strToBytes pid) rnd.payloadNonce hp
  simp [envelopeDecrypt, validateRecordBytes, encRecord, getKey, hk, hp, hd,
    tagBytes_length, h1, h2, jsonParse]

/-- Shared round-trip statement used by several claims. -/
theorem encrypt_roundtrip (reg : KeyRegistry) (rnd : EncRandom)
    (id pid : String) (pl : ByteS) (now : String)
    (hreg : reg ≠ []) (hWF : rnd.WF) :
    ∃ r, envelopeEncrypt reg rnd id pid pl now = .ok r ∧
      txDecryptResult reg r = .ok ⟨id, pid, pl⟩ := by
  obtain ⟨mk, hmk⟩ := getKey_latest hreg
  have hk : regLookup reg (getLatestVersion reg) = some mk := by
    rcases hlook : regLookup reg (getLatestVersion reg) with _ | k
    · rw [getKey, hlook] at hmk; cases hmk
    · rw [getKey, hlook] at hmk; exact congrArg some (Except.ok.inj hmk)
  refine ⟨encRecord rnd id pid pl now mk (getLatestVersion reg),
    envelopeEncrypt_eq rnd id pid pl now hmk, ?_⟩
  rw [txDecryptResult, envelopeDecrypt_encRecord hWF.2.1 hWF.2.2 id pid pl now hk]
  simp [encRecord]

/-! ## Decryption of mutated records -/

theorem set_ne_self {l : List Sexp} {i : Nat} {b : Sexp}
    (hi : i < l.length) (hb : b ≠ l.getD i (.atom 0)) : l.set i b ≠ l := by
  intro h
  apply hb
  have h2 := congrArg (fun t => t[i]?) h
  simp only [List.getElem?_set_eq_of_lt b hi, List.getElem?_eq_getElem hi] at h2
  rw [List.getD_eq_getElem l _ hi]
  exact Option.some.inj h2

theorem envelopeDecrypt_mut_payload_ct {rnd : EncRandom}
    (hp : rnd.payloadNonce.length = NONCE_BYTES)
    (hd : rnd.dekNonce.length = NONCE_BYTES)
    (id pid : String) (pl : ByteS) (now : String)
    {reg' : KeyRegistry} {mk : ByteS} {v : Nat}
    (hk : regLookup reg' v = some mk) (ct' : ByteS)
    (hct : ct' ≠ ctBytes rnd.dek rnd.payloadNonce pl) :
    envelopeDecrypt reg'
      { encRecord rnd id pid pl now mk v with payload_ct := ct' } =
        .error .authenticationFailed := by
  have h1 := aesGcmDecrypt_roundtrip mk rnd.dek (strToBytes pid) rnd.dekNonce hd
  have h2 := aesGcmDecrypt_wrong_ct rnd.dek pl (strToBytes pid) rnd.payloadNonce ct' hp hct
  simp [envelopeDecrypt, validateRecordBytes, encRecord, getKey, hk, hp, hd,
    tagBytes_length, h1, h2]

theorem envelopeDecrypt_mut_payload_tag {rnd : EncRandom}
    (hp : rnd.payloadNonce.length = NONCE_BYTES)
    (hd : rnd.dekNonce.length = NONCE_BYTES)
    (id pid : String) (pl : ByteS) (now : String)
    {reg' : KeyRegistry} {mk : ByteS} {v : Nat}
    (hk : regLookup reg' v = some mk) (tag' : ByteS)
    (ht : tag'.length = TAG_BYTES)
    (htag : tag' ≠ tagBytes rnd.dek rnd.payloadNonce (strToBytes pid)
      (ctBytes rnd.dek rnd.payloadNonce pl)) :
    envelopeDecrypt reg'
      { encRecord rnd id pid pl now mk v with payload_tag := tag' } =
        .error .authenticationFailed := by
  have h1 := aesGcmDecrypt_roundtrip mk rnd.dek (strToBytes pid) rnd.dekNonce hd
  have h2 := aesGcmDecrypt_wrong_tag rnd.dek (strToBytes pid) rnd.payloadNonce
    (ctBytes rnd.dek rnd.payloadNonce pl) tag' hp ht htag
  simp [envelopeDecrypt, validateRecordBytes, encRecord, getKey, hk, hp, hd,
    tagBytes_length, ht, h1, h2]

theorem envelopeDecrypt_mut_payload_nonce {rnd : EncRandom}
    (hp : rnd.payloadNonce.length = NONCE_BYTES)
    (hd : rnd.dekNonce.length = NONCE_BYTES)
    (id pid : String) (pl : ByteS) (now : String)
    {reg' : KeyRegistry} {mk : ByteS} {v : Nat}
    (hk : regLookup reg' v = some mk) (n' : ByteS)
    (hn' : n'.length = NONCE_BYTES) (hne : n' ≠ rnd.payloadNonce) :
    envelopeDecrypt reg'
      { encRecord rnd id pid pl now mk v with payload_nonce := n' } =
        .error .authenticationFailed := by
  have h1 := aesGcmDecrypt_roundtrip mk rnd.dek (strToBytes pid) rnd.dekNonce hd
  have h2 := aesGcmDecrypt_wrong_nonce rnd.dek pl (strToBytes pid)
    rnd.payloadNonce n' hn' hne
  simp [envelopeDecrypt, validateRecordBytes, encRecord, getKey, hk, hn', hd,
    tagBytes_length, h1, h2]

theorem envelopeDecrypt_mut_dek_wrapped {rnd : EncRandom}
    (hp : rnd.payloadNonce.length = NONCE_BYTES)
    (hd : rnd.dekNonce.length = NONCE_BYTES)
    (id pid : String) (pl : ByteS) (now : String)
    {reg' : KeyRegistry} {mk : ByteS} {v : Nat}
    (hk : regLookup reg' v = some mk) (ctd' : ByteS)
    (hct : ctd' ≠ ctBytes mk rnd.dekNonce rnd.dek) :
    envelopeDecrypt reg'
      { encRecord rnd id pid pl now mk v with dek_wrapped := ctd' } =
        .error .authenticationFailed := by
  have h1 := aesGcmDecrypt_wrong_ct mk rnd.dek (strToBytes pid) rnd.dekNonce ctd' hd hct
  simp [envelopeDecrypt, validateRecordBytes, encRecord, getKey, hk, hp, hd,
    tagBytes_length, h1]

theorem envelopeDecrypt_mut_dek_wrap_tag {rnd : EncRandom}
    (hp : rnd.payloadNonce.length = NONCE_BYTES)
    (hd : rnd.dekNonce.length = NONCE_BYTES)
    (id pid : String) (pl : ByteS) (now : String)
    {reg' : KeyRegistry} {mk : ByteS} {v : Nat}
    (hk : regLookup reg' v = some mk) (tag' : ByteS)
    (ht : tag'.length = TAG_BYTES)
    (htag : tag' ≠ tagBytes mk rnd.dekNonce (strToBytes pid)
      (ctBytes mk rnd.dekNonce rnd.dek)) :
    envelopeDecrypt reg'
      { encRecord rnd id pid pl now mk v with dek_wrap_tag := tag' } =
        .error .authenticationFailed := by
  have h1 := aesGcmDecrypt_wrong_tag mk (strToBytes pid) rnd.dekNonce
    (ctBytes mk rnd.dekNonce rnd.dek) tag' hd ht htag
  simp [envelopeDecrypt, validateRecordBytes, encRecord, getKey, hk, hp, hd,
    tagBytes_length, ht, h1]

theorem envelopeDecrypt_mut_dek_wrap_nonce {rnd : EncRandom}
    (hp : rnd.payloadNonce.length = NONCE_BYTES)
    (hd : rnd.dekNonce.length = NONCE_BYTES)
    (id pid : String) (pl : ByteS) (now : String)
    {reg' : KeyRegistry} {mk : ByteS} {v : Nat}
    (hk : regLookup reg' v = some mk) (n' : ByteS)
    (hn' : n'.length = NONCE_BYTES) (hne : n' ≠ rnd.dekNonce) :
    envelopeDecrypt reg'
      { encRecord rnd id pid pl now mk v with dek_wrap_nonce := n' } =
        .error .authenticationFailed := by
  have h1 := aesGcmDecrypt_wrong_nonce mk rnd.dek (strToBytes pid)
    rnd.dekNonce n' hn' hne
  simp [envelopeDecrypt, validateRecordBytes, encRecord, getKey, hk, hp, hn',
    tagBytes_length, h1]

theorem envelopeDecrypt_mut_partyId {rnd : EncRandom}
    (hp : rnd.payloadNonce.length = NONCE_BYTES)
    (hd : rnd.dekNonce.length = NONCE_BYTES)
    (id pid : String) (pl : ByteS) (now : String)
    {reg' : KeyRegistry} {mk : ByteS} {v : Nat}
    (hk : regLookup reg' v = some mk) (pid' : String) (hne : pid' ≠ pid) :
    envelopeDecrypt reg'
      { encRecord rnd id pid pl now mk v with partyId := pid' } =
        .error .authenticationFailed := by
  have haad : strToBytes pid' ≠ strToBytes pid := fun h => hne (strToBytes_inj h)
  have h1 := aesGcmDecrypt_wrong_aad mk rnd.dek (strToBytes pid)
    (strToBytes pid') rnd.dekNonce hd haad
  simp [envelopeDecrypt, validateRecordBytes, encRecord, getKey, hk, hp, hd,
    tagBytes_length, h1]

theorem envelopeDecrypt_mut_mk_version {rnd : EncRandom}
    (hp : rnd.payloadNonce.length = NONCE_BYTES)
    (hd : rnd.dekNonce.length = NONCE_BYTES)
    (id pid : String) (pl : ByteS) (now : String)
    (reg' : KeyRegistry) (mk : ByteS) (v w : Nat)
    (hnone : regLookup reg' w = none) :
    envelopeDecrypt reg'
      { encRecord rnd id pid pl now mk v with mk_version := w } =
        .error (.unknownKeyVersion w) := by
  simp [envelopeDecrypt, validateRecordBytes, encRecord, getKey, hnone, hp, hd,
    tagBytes_length]

theorem envelopeDecrypt_ignores_meta (reg : KeyRegistry) (r : TxSecureRecord)
    (x y z : String) :
    envelopeDecrypt reg { r with id := x, createdAt := y, alg := z } =
      envelopeDecrypt reg r := rfl

/-! ## Characterization of hex validation -/

/-- Well-formed hex text: only `[0-9a-fA-F]` digits and even length. -/
def hexWF (s : String) : Prop :=
  s.data.all isHexDigit = true ∧ s.length % 2 = 0

instance (s : String) : Decidable (hexWF s) := by
  unfold hexWF; infer_instance

/-- Number of bytes a hex field decodes to. -/
def decodedLen (s : String) : Nat := (hexPairsToBytes s.data).length

theorem validateHex_ok_inv {s L : String} {o : Option Nat} {b : List Nat}
    (h : validateHex s L o = .ok b) :
    hexWF s ∧ b = hexPairsToBytes s.data ∧ ∀ n, o = some n → b.length = n := by
  by_cases hc : ¬ (s.data.all isHexDigit = true) ∨ s.length % 2 ≠ 0
  case pos =>
    rcases o with _ | n
    · rw [validateHex_none_def, if_pos hc] at h; cases h
    · rw [validateHex_some_def, if_pos hc] at h; cases h
  case neg =>
    have hwf : hexWF s := by
      push_neg at hc; exact ⟨hc.1, hc.2⟩
    rcases o with _ | n
    · rw [validateHex_none_def, if_neg hc] at h
      exact ⟨hwf, (Except.ok.inj h).symm, fun n hn => by cases hn⟩
    · rw [validateHex_some_def, if_neg hc] at h
      by_cases hl : (hexPairsToBytes s.data).length ≠ n
      · rw [if_pos hl] at h; cases h
      · rw [if_neg hl] at h
        push_neg at hl
        refine ⟨hwf, (Except.ok.inj h).symm, fun m hm => ?_⟩
        cases hm
        rw [(Except.ok.inj h).symm]
        exact hl

theorem validateHex_ok_of_wf {s : String} (L : String) (h : hexWF s) :
    validateHex s L none = .ok (hexPairsToBytes s.data) := by
  rw [validateHex_none_def, if_neg (by simp [h.1, h.2])]

theorem validateHex_some_ok {s : String} (L : String) {n : Nat} (h : hexWF s)
    (hl : decodedLen s = n) :
    validateHex s L (some n) = .ok (hexPairsToBytes s.data) := by
  rw [validateHex_some_def, if_neg (by simp [h.1, h.2])]
  simp only [decodedLen] at hl
  rw [if_neg (by simp [hl])]

theorem validateHex_label_eq {s L1 : String} (L2 : String) {o : Option Nat}
    {b : List Nat} (h : validateHex s L1 o = .ok b) :
    validateHex s L2 o = .ok b := by
  obtain ⟨hwf, hb, hlen⟩ := validateHex_ok_inv h
  rcases o with _ | n
  · rw [validateHex_ok_of_wf L2 hwf, hb]
  · rw [validateHex_some_ok L2 hwf (by rw [decodedLen, ← hb]; exact hlen n rfl), hb]

theorem validateHex_error_kind {s L : String} {o : Option Nat} {e : CryptoError}
    (h : validateHex s L o = .error e) :
    e = .malformedEncoding L ∨
      ∃ n, e = .lengthMismatch L n (decodedLen s) := by
  by_cases hc : ¬ (s.data.all isHexDigit = true) ∨ s.length % 2 ≠ 0
  case pos =>
    rcases o with _ | n
    · rw [validateHex_none_def, if_pos hc] at h
      exact Or.inl (Except.error.inj h).symm
    · rw [validateHex_some_def, if_pos hc] at h
      exact Or.inl (Except.error.inj h).symm
  case neg =>
    rcases o with _ | n
    · rw [validateHex_none_def, if_neg hc] at h; cases h
    · rw [validateHex_some_def, if_neg hc] at h
      by_cases hl : (hexPairsToBytes s.data).length ≠ n
      · rw [if_pos hl] at h
        exact Or.inr ⟨n, (Except.error.inj h).symm⟩
      · rw [if_neg hl] at h; cases h

/-- What `validateRecord` checks, exactly: well-formed hex for all six
binary fields, 12 decoded bytes for the two nonces, 16 for the two tags —
and nothing else (in particular, no length constraint on `payload_ct` or
on the wrapped DEK). -/
theorem validateRecord_ok_iff (r : TxSecureRecordHex) :
    validateRecord r = .ok () ↔
      (hexWF r.payload_nonce ∧ decodedLen r.payload_nonce = NONCE_BYTES ∧
       hexWF r.payload_ct ∧
       hexWF r.payload_tag ∧ decodedLen r.payload_tag = TAG_BYTES ∧
       hexWF r.dek_wrap_nonce ∧ decodedLen r.dek_wrap_nonce = NONCE_BYTES ∧
       hexWF r.dek_wrapped ∧
       hexWF r.dek_wrap_tag ∧ decodedLen r.dek_wrap_tag = TAG_BYTES) := by
  constructor
  · intro h
    rcases h1 : validateHex r.payload_nonce "payload_nonce" (some NONCE_BYTES)
      with e | b1
    · rw [validateRecord, h1] at h; cases h
    rcases h2 : validateHex r.payload_ct "payload_ct" none with e | b2
    · rw [validateRecord, h1, h2] at h; cases h
    rcases h3 : validateHex r.payload_tag "payload_tag" (some TAG_BYTES)
      with e | b3
    · rw [validateRecord, h1, h2, h3] at h; cases h
    rcases h4 : validateHex r.dek_wrap_nonce "dek_wrap_nonce" (some NONCE_BYTES)
      with e | b4
    · rw [validateRecord, h1, h2, h3, h4] at h; cases h
    rcases h5 : validateHex r.dek_wrapped "dek_wrapped" none with e | b5
    · rw [validateRecord, h1, h2, h3, h4, h5] at h; cases h
    rcases h6 : validateHex r.dek_wrap_tag "dek_wrap_tag" (some TAG_BYTES)
      with e | b6
    · rw [validateRecord, h1, h2, h3, h4, h5, h6] at h; cases h
    obtain ⟨w1, e1, l1⟩ := validateHex_ok_inv h1
    obtain ⟨w2, -, -⟩ := validateHex_ok_inv h2
    obtain ⟨w3, e3, l3⟩ := validateHex_ok_inv h3
    obtain ⟨w4, e4, l4⟩ := validateHex_ok_inv h4
    obtain ⟨w5, -, -⟩ := validateHex_ok_inv h5
    obtain ⟨w6, e6, l6⟩ := validateHex_ok_inv h6
    refine ⟨w1, ?_, w2, w3, ?_, w4, ?_, w5, w6, ?_⟩
    · rw [decodedLen, ← e1]; exact l1 _ rfl
    · rw [decodedLen, ← e3]; exact l3 _ rfl
    · rw [decodedLen, ← e4]; exact l4 _ rfl
    · rw [decodedLen, ← e6]; exact l6 _ rfl
  · rintro ⟨w1, l1, w2, w3, l3, w4, l4, w5, w6, l6⟩
    rw [validateRecord,
      validateHex_some_ok "payload_nonce" w1 l1,
      validateHex_ok_of_wf "payload_ct" w2,
      validateHex_some_ok "payload_tag" w3 l3,
      validateHex_some_ok "dek_wrap_nonce" w4 l4,
      validateHex_ok_of_wf "dek_wrapped" w5,
      validateHex_some_ok "dek_wrap_tag" w6 l6]

/-- Any `validateRecord` failure is a `MalformedEncoding` or a
`LengthMismatch`. -/
theorem validateRecord_error_kind {r : TxSecureRecordHex} {e : CryptoError}
    (h : validateRecord r = .error e) :
    (∃ l, e = .malformedEncoding l) ∨ ∃ l n a, e = .lengthMismatch l n a := by
  have kind : ∀ (s L : String) (o : Option Nat),
      validateHex s L o = .error e →
      (∃ l, e = .malformedEncoding l) ∨ ∃ l n a, e = .lengthMismatch l n a := by
    intro s L o hv
    rcases validateHex_error_kind hv with h | ⟨n, h⟩
    · exact Or.inl ⟨L, h⟩
    · exact Or.inr ⟨L, n, decodedLen s, h⟩
  rcases h1 : validateHex r.payload_nonce "payload_nonce" (some NONCE_BYTES)
    with e1 | b1
  · rw [validateRecord, h1] at h; exact kind _ _ _ (h1.trans (congrArg _ (Except.error.inj h)))
  rcases h2 : validateHex r.payload_ct "payload_ct" none with e2 | b2
  · rw [validateRecord, h1, h2] at h
    exact kind _ _ _ (h2.trans (congrArg _ (Except.error.inj h)))
  rcases h3 : validateHex r.payload_tag "payload_tag" (some TAG_BYTES) with e3 | b3
  · rw [validateRecord, h1, h2, h3] at h
    exact kind _ _ _ (h3.trans (congrArg _ (Except.error.inj h)))
  rcases h4 : validateHex r.dek_wrap_nonce "dek_wrap_nonce" (some NONCE_BYTES)
    with e4 | b4
  · rw [validateRecord, h1, h2, h3, h4] at h
    exact kind _ _ _ (h4.trans (congrArg _ (Except.error.inj h)))
  rcases h5 : validateHex r.dek_wrapped "dek_wrapped" none with e5 | b5
  · rw [validateRecord, h1, h2, h3, h4, h5] at h
    exact kind _ _ _ (h5.trans (congrArg _ (Except.error.inj h)))
  rcases h6 : validateHex r.dek_wrap_tag "dek_wrap_tag" (some TAG_BYTES)
    with e6 | b6
  · rw [validateRecord, h1, h2, h3, h4, h5, h6] at h
    exact kind _ _ _ (h6.trans (congrArg _ (Except.error.inj h)))
  · rw [validateRecord, h1, h2, h3, h4, h5, h6] at h; cases h

/-- Validation failures short-circuit `envelopeDecrypt` before any key
lookup or cryptographic operation. -/
theorem envelopeDecrypt_validation_gate (reg : KeyRegistry)
    (rec : TxSecureRecord) (e : CryptoError)
    (h : validateRecordBytes rec = .error e) :
    envelopeDecrypt reg rec = .error e := by
  rw [envelopeDecrypt, h]

/-! ## Further helper lemmas -/

theorem getKey_ok_lookup {reg : KeyRegistry} {v : Nat} {mk : ByteS}
    (h : getKey reg v = .ok mk) : regLookup reg v = some mk := by
  rcases hl : regLookup reg v with _ | k
  · rw [getKey, hl] at h; cases h
  · rw [getKey, hl] at h; exact congrArg some (Except.ok.inj h)

theorem envelopeDecrypt_ignores_id (reg : KeyRegistry) (r : TxSecureRecord)
    (x : String) : envelopeDecrypt reg { r with id := x } = envelopeDecrypt reg r :=
  rfl

theorem envelopeDecrypt_ignores_createdAt (reg : KeyRegistry)
    (r : TxSecureRecord) (x : String) :
    envelopeDecrypt reg { r with createdAt := x } = envelopeDecrypt reg r :=
  rfl

theorem envelopeDecrypt_ignores_alg (reg : KeyRegistry) (r : TxSecureRecord)
    (x : String) :
    envelopeDecrypt reg { r with alg := x } = envelopeDecrypt reg r :=
  rfl

theorem ne_nil_of_length_pos {l : ByteS} {n : Nat} (h : l.length = n)
    (hn : 0 < n) : l ≠ [] := by
  intro he
  rw [he] at h
  simp at h
  omega

theorem ctBytes_head_inj {k n d k' n' d' : ByteS} (hd : d ≠ []) (hd' : d' ≠ [])
    (h : ctBytes k n d = ctBytes k' n' d') : k = k' ∧ n = n' ∧ d = d' := by
  have hlen : 0 < d.length := List.length_pos.mpr hd
  have hlen' : 0 < d'.length := List.length_pos.mpr hd'
  have h0 := congrArg (fun l => l[0]?) h
  simp only [ctBytes, List.getElem?_map, List.getElem?_range hlen,
    List.getElem?_range hlen', Option.map_some'] at h0
  obtain ⟨hk, hn, hdd, -⟩ := encByte_inj (Option.some.inj h0)
  exact ⟨hk, hn, hdd⟩

/-! ## Registry construction lemmas -/

theorem buildEntries_ok_keys {env : List (String × String)} {reg : KeyRegistry}
    (h : buildEntries env = .ok reg) :
    ∀ p ∈ reg, ∃ raw, p.2 = rawBytes raw ∧ raw.length = 32 := by
  induction env generalizing reg with
  | nil =>
      intro p hp
      rw [buildEntries] at h
      rw [← Except.ok.inj h] at hp
      simp at hp
  | cons nv rest ih =>
      obtain ⟨name, value⟩ := nv
      rw [buildEntries] at h
      rcases hv : versionedKeyName name with _ | ver
      · rw [hv] at h; simp only [] at h; exact ih h
      · rw [hv] at h
        simp only [] at h
        by_cases hval : value ≠ ""
        · rw [if_pos hval] at h
          rcases hvh : validateHex value ("MASTER_KEY_V" ++ toString ver) (some 32)
            with e | bytes
          · rw [hvh] at h; cases h
          · rw [hvh] at h
            rcases hrest : buildEntries rest with e | reg'
            · rw [hrest] at h; cases h
            · rw [hrest] at h
              intro p hp
              rw [← Except.ok.inj h] at hp
              rcases List.mem_cons.mp hp with hphead | hptail
              · subst hphead
                obtain ⟨-, -, hlen⟩ := validateHex_ok_inv hvh
                exact ⟨bytes, rfl, hlen 32 rfl⟩
              · exact ih hrest p hptail
        · rw [if_neg hval] at h; exact ih h

theorem buildEntries_none {env : List (String × String)}
    (h : ∀ p ∈ env, versionedKeyName p.1 = none) : buildEntries env = .ok [] := by
  induction env with
  | nil => rfl
  | cons nv rest ih =>
      obtain ⟨name, value⟩ := nv
      rw [buildEntries, h (name, value) (List.mem_cons_self _ _)]
      exact ih (fun p hp => h p (List.mem_cons_of_mem _ hp))

theorem buildKeyRegistry_ok_inv {env : List (String × String)}
    {reg : KeyRegistry} (h : buildKeyRegistry env = .ok reg) :
    reg ≠ [] ∧ ∀ p ∈ reg, ∃ raw, p.2 = rawBytes raw ∧ raw.length = 32 := by
  rw [buildKeyRegistry] at h
  rcases he : buildEntries env with e | reg0
  · rw [he] at h; cases h
  · rw [he] at h
    simp only [] at h
    by_cases h0 : reg0 = []
    · rw [if_pos h0] at h
      rcases hl : envLookup env "MASTER_KEY" with _ | v
      · rw [hl] at h; cases h
      · rw [hl] at h
        simp only [] at h
        by_cases hv : v ≠ ""
        · rw [if_pos hv] at h
          rcases hvh : validateHex v "MASTER_KEY" (some 32) with e | bytes
          · rw [hvh] at h; cases h
          · rw [hvh] at h
            obtain ⟨-, -, hlen⟩ := validateHex_ok_inv hvh
            rw [← Except.ok.inj h]
            refine ⟨by simp, ?_⟩
            intro p hp
            simp only [List.mem_singleton] at hp
            subst hp
            exact ⟨bytes, rfl, hlen 32 rfl⟩
        · rw [if_neg hv] at h; cases h
    · rw [if_neg h0] at h
      rw [← Except.ok.inj h]
      exact ⟨h0, buildEntries_ok_keys he⟩

theorem buildKeyRegistry_noKeys {env : List (String × String)}
    (hm : ∀ p ∈ env, versionedKeyName p.1 = none)
    (hl : envLookup env "MASTER_KEY" = none) :
    buildKeyRegistry env = .error .noKeysConfigured := by
  simp [buildKeyRegistry, buildEntries_none hm, hl]

/-! ## Concrete test fixtures (used by witnesses and counterexamples) -/

/-- A 32-byte master key. -/
def k0 : ByteS := rawBytes (List.replicate 32 7)

/-- A second 32-byte master key. -/
def kB : ByteS := rawBytes (List.replicate 32 11)

/-- A single-key registry holding `k0` as version 1. -/
def reg0 : KeyRegistry := [(1, k0)]

/-- Well-formed randomness for one encrypt call. -/
def rnd0 : EncRandom :=
  { dek := rawBytes (List.replicate 32 9),
    payloadNonce := rawBytes (List.replicate 12 1),
    dekNonce := rawBytes (List.replicate 12 2) }

/-- Well-formed randomness for a second, independent encrypt call. -/
def rndB : EncRandom :=
  { dek := rawBytes (List.replicate 32 10),
    payloadNonce := rawBytes (List.replicate 12 3),
    dekNonce := rawBytes (List.replicate 12 4) }

/-- A payload: the canonical serialization bytes of the JSON object. -/
def pl0 : ByteS := rawBytes [123, 125]

/-- The record produced by `envelopeEncrypt reg0 rnd0 "tx-1" "party-1" pl0`. -/
def r0 : TxSecureRecord := encRecord rnd0 "tx-1" "party-1" pl0 "2026-01-01" k0 1

/-- 64 hex zeros: a valid 32-byte key string. -/
def z64 : String := String.mk (List.replicate 64 '0')

/-- The bytes `z64` decodes to. -/
def zkey : List Nat := List.replicate 32 0

/-- A hex-view record whose `dek_wrapped` field decodes to only 2 bytes but
whose nonces and tags have the expected lengths. -/
def rhex0 : TxSecureRecordHex where
  id := "tx-1"
  partyId := "party-1"
  createdAt := "2026-01-01"
  payload_nonce := String.mk (List.replicate 24 '0')
  payload_ct := "00"
  payload_tag := String.mk (List.replicate 32 '0')
  dek_wrap_nonce := String.mk (List.replicate 24 '0')
  dek_wrapped := "abcd"
  dek_wrap_tag := String.mk (List.replicate 32 '0')
  alg := "AES-256-GCM"
  mk_version := 1

/-- A byte-view record failing validation (empty payload nonce). -/
def rbad0 : TxSecureRecord := { r0 with payload_nonce := [] }

/-! ## Claims -/

/-- Claim C1: for every registry holding at least one key, every id, every
partyId, and every payload, decrypting the record produced by `encrypt`
with the same registry yields back `{id, partyId, payload}`.  Randomness is
passed explicitly; `rnd.WF` states that the random draws have the byte
lengths `randomBytes` guarantees. -/
theorem c1_round_trip (reg : KeyRegistry) (rnd : EncRandom) (id pid : String)
    (pl : ByteS) (now : String) (hreg : reg ≠ []) (hWF : rnd.WF) :
    ∃ r, envelopeEncrypt reg rnd id pid pl now = .ok r ∧
      txDecryptResult reg r = .ok ⟨id, pid, pl⟩ :=
  encrypt_roundtrip reg rnd id pid pl now hreg hWF

theorem c1_round_trip_witness :
    ∃ r, envelopeEncrypt reg0 rnd0 "tx-1" "party-1" pl0 "2026-01-01" = .ok r ∧
      txDecryptResult reg0 r = .ok ⟨"tx-1", "party-1", pl0⟩ :=
  c1_round_trip reg0 rnd0 "tx-1" "party-1" pl0 "2026-01-01" (by decide) (by decide)

/-- Claim C2: for every record produced by `encrypt`, flipping any single
byte of `payload_ct`, `payload_tag`, `dek_wrapped` or `dek_wrap_tag`
(replacing the byte at any position by a different byte), or replacing
`partyId` by a different string, makes `decrypt` under the same registry
fail with `AuthenticationFailed`. -/
theorem c2_tamper_detection (reg : KeyRegistry) (rnd : EncRandom)
    (id pid : String) (pl : ByteS) (now : String) (r : TxSecureRecord)
    (hWF : rnd.WF) (henc : envelopeEncrypt reg rnd id pid pl now = .ok r) :
    (∀ i b, i < r.payload_ct.length → b ≠ r.payload_ct.getD i (.atom 0) →
        envelopeDecrypt reg { r with payload_ct := r.payload_ct.set i b } =
          .error .authenticationFailed) ∧
    (∀ i b, i < r.payload_tag.length → b ≠ r.payload_tag.getD i (.atom 0) →
        envelopeDecrypt reg { r with payload_tag := r.payload_tag.set i b } =
          .error .authenticationFailed) ∧
    (∀ i b, i < r.dek_wrapped.length → b ≠ r.dek_wrapped.getD i (.atom 0) →
        envelopeDecrypt reg { r with dek_wrapped := r.dek_wrapped.set i b } =
          .error .authenticationFailed) ∧
    (∀ i b, i < r.dek_wrap_tag.length → b ≠ r.dek_wrap_tag.getD i (.atom 0) →
        envelopeDecrypt reg { r with dek_wrap_tag := r.dek_wrap_tag.set i b } =
          .error .authenticationFailed) ∧
    (∀ pid', pid' ≠ pid →
        envelopeDecrypt reg { r with partyId := pid' } =
          .error .authenticationFailed) := by
  obtain ⟨mk, hmk, hr⟩ := envelopeEncrypt_ok_elim henc
  have hk := getKey_ok_lookup hmk
  subst hr
  refine ⟨?_, ?_, ?_, ?_, ?_⟩
  · intro i b hi hb
    exact envelopeDecrypt_mut_payload_ct hWF.2.1 hWF.2.2 id pid pl now hk _
      (set_ne_self hi hb)
  · intro i b hi hb
    refine envelopeDecrypt_mut_payload_tag hWF.2.1 hWF.2.2 id pid pl now hk _
      ?_ (set_ne_self hi hb)
    rw [List.length_set]
    exact tagBytes_length _ _ _ _
  · intro i b hi hb
    exact envelopeDecrypt_mut_dek_wrapped hWF.2.1 hWF.2.2 id pid pl now hk _
      (set_ne_self hi hb)
  · intro i b hi hb
    refine envelopeDecrypt_mut_dek_wrap_tag hWF.2.1 hWF.2.2 id pid pl now hk _
      ?_ (set_ne_self hi hb)
    rw [List.length_set]
    exact tagBytes_length _ _ _ _
  · intro pid' hne
    exact envelopeDecrypt_mut_partyId hWF.2.1 hWF.2.2 id pid pl now hk pid' hne

theorem c2_tamper_detection_witness :
    envelopeDecrypt reg0 { r0 with payload_ct := r0.payload_ct.set 0 (.atom 99) } =
        .error .authenticationFailed ∧
    envelopeDecrypt reg0 { r0 with payload_tag := r0.payload_tag.set 0 (.atom 99) } =
        .error .authenticationFailed ∧
    envelopeDecrypt reg0 { r0 with dek_wrapped := r0.dek_wrapped.set 0 (.atom 99) } =
        .error .authenticationFailed ∧
    envelopeDecrypt reg0 { r0 with dek_wrap_tag := r0.dek_wrap_tag.set 0 (.atom 99) } =
        .error .authenticationFailed ∧
    envelopeDecrypt reg0 { r0 with partyId := "attacker" } =
        .error .authenticationFailed := by
  have h := c2_tamper_detection reg0 rnd0 "tx-1" "party-1" pl0 "2026-01-01" r0
    (by decide) rfl
  exact ⟨h.1 0 (.atom 99) (by decide) (by decide),
    h.2.1 0 (.atom 99) (by decide) (by decide),
    h.2.2.1 0 (.atom 99) (by decide) (by decide),
    h.2.2.2.1 0 (.atom 99) (by decide) (by decide),
    h.2.2.2.2 "attacker" (by decide)⟩

/-- Claim C10: `encrypt` imposes no non-emptiness precondition of its own —
with the empty string as both `id` and `partyId` (an empty AAD) it still
succeeds, and the record round-trips back to the original payload. -/
theorem c10_no_nonempty_precondition (reg : KeyRegistry) (rnd : EncRandom)
    (pl : ByteS) (now : String) (hreg : reg ≠ []) (hWF : rnd.WF) :
    ∃ r, envelopeEncrypt reg rnd "" "" pl now = .ok r ∧
      txDecryptResult reg r = .ok ⟨"", "", pl⟩ :=
  encrypt_roundtrip reg rnd "" "" pl now hreg hWF

theorem c10_no_nonempty_precondition_witness :
    ∃ r, envelopeEncrypt reg0 rnd0 "" "" pl0 "2026-01-01" = .ok r ∧
      txDecryptResult reg0 r = .ok ⟨"", "", pl0⟩ :=
  c10_no_nonempty_precondition reg0 rnd0 pl0 "2026-01-01" (by decide) (by decide)

/-- Claim C3 counterexample: the source `validateRecord` imposes no length
constraint on the wrapped-DEK ciphertext.  A record whose `dek_wrapped`
field decodes to 2 bytes — not the 32 the registry key size would demand —
passes validation in full, so the claimed "master-wrapped ciphertext
matches registry key size" check does not exist. -/
theorem c3_counterexample :
    validateHex rhex0.dek_wrapped "dek_wrapped" none = .ok [171, 205] ∧
    decodedLen rhex0.dek_wrapped ≠ 32 ∧
    validateRecord rhex0 = .ok () :=
  ⟨rfl, by decide, rfl⟩

/-- Claim C3 (amended): decrypt's first step validates every hex field of
the record — well-formed hex for all six binary fields, exactly 12 decoded
bytes for both nonces and 16 for both tags, but **no** length constraint on
the wrapped-DEK ciphertext (nor on the payload ciphertext); every failure
is a `MalformedEncoding` or `LengthMismatch`, and a validation failure
short-circuits `decrypt` before any key lookup or cryptographic call. -/
theorem c3_validation_amended :
    (∀ r : TxSecureRecordHex,
        validateRecord r = .ok () ↔
          (hexWF r.payload_nonce ∧ decodedLen r.payload_nonce = NONCE_BYTES ∧
           hexWF r.payload_ct ∧
           hexWF r.payload_tag ∧ decodedLen r.payload_tag = TAG_BYTES ∧
           hexWF r.dek_wrap_nonce ∧ decodedLen r.dek_wrap_nonce = NONCE_BYTES ∧
           hexWF r.dek_wrapped ∧
           hexWF r.dek_wrap_tag ∧ decodedLen r.dek_wrap_tag = TAG_BYTES)) ∧
    (∀ (r : TxSecureRecordHex) (e : CryptoError), validateRecord r = .error e →
        (∃ l, e = .malformedEncoding l) ∨ ∃ l n a, e = .lengthMismatch l n a) ∧
    (∀ (reg : KeyRegistry) (rec : TxSecureRecord) (e : CryptoError),
        validateRecordBytes rec = .error e → envelopeDecrypt reg rec = .error e) :=
  ⟨validateRecord_ok_iff, fun _ _ h => validateRecord_error_kind h,
    envelopeDecrypt_validation_gate⟩

theorem c3_validation_amended_witness :
    validateRecord rhex0 = .ok () ∧
    envelopeDecrypt [] rbad0 = .error (.lengthMismatch "payload_nonce" 12 0) :=
  ⟨(c3_validation_amended.1 rhex0).mpr (by decide),
    c3_validation_amended.2.2 [] rbad0 _ rfl⟩

/-- Claim C4 counterexample: mutating the `id` field of a record produced
by `encrypt` is **not** detectable as tampering — decryption of the mutated
record under the same registry still succeeds and returns the original
payload. -/
theorem c4_counterexample :
    envelopeEncrypt reg0 rnd0 "tx-1" "party-1" pl0 "2026-01-01" = .ok r0 ∧
    "tampered-id" ≠ r0.id ∧
    envelopeDecrypt reg0 { r0 with id := "tampered-id" } = .ok pl0 := by
  refine ⟨rfl, by decide, ?_⟩
  rw [envelopeDecrypt_ignores_id]
  exact envelopeDecrypt_encRecord (by decide) (by decide)
    "tx-1" "party-1" pl0 "2026-01-01" (by decide)

/-- Claim C4 (amended): for a record produced by `encrypt`, mutations of
the authenticated material are detected — a different nonce in either slot
fails with `AuthenticationFailed` (as do ciphertext, tag and `partyId`
changes, per the C2 theorem), and changing `mk_version` to a version absent
from the registry fails with `UnknownKeyVersion` — but the unauthenticated
metadata fields `id`, `createdAt` and `alg` can be mutated freely: decrypt
still succeeds and returns the original payload. -/
theorem c4_mutation_amended (reg : KeyRegistry) (rnd : EncRandom)
    (id pid : String) (pl : ByteS) (now : String) (r : TxSecureRecord)
    (hWF : rnd.WF) (henc : envelopeEncrypt reg rnd id pid pl now = .ok r) :
    (∀ x, envelopeDecrypt reg { r with id := x } = .ok pl) ∧
    (∀ x, envelopeDecrypt reg { r with createdAt := x } = .ok pl) ∧
    (∀ x, envelopeDecrypt reg { r with alg := x } = .ok pl) ∧
    (∀ n', n'.length = NONCE_BYTES → n' ≠ r.payload_nonce →
        envelopeDecrypt reg { r with payload_nonce := n' } =
          .error .authenticationFailed) ∧
    (∀ n', n'.length = NONCE_BYTES → n' ≠ r.dek_wrap_nonce →
        envelopeDecrypt reg { r with dek_wrap_nonce := n' } =
          .error .authenticationFailed) ∧
    (∀ w, regLookup reg w = none →
        envelopeDecrypt reg { r with mk_version := w } =
          .error (.unknownKeyVersion w)) := by
  obtain ⟨mk, hmk, hr⟩ := envelopeEncrypt_ok_elim henc
  have hk := getKey_ok_lookup hmk
  subst hr
  have hdec : envelopeDecrypt reg
      (encRecord rnd id pid pl now mk (getLatestVersion reg)) = .ok pl :=
    envelopeDecrypt_encRecord hWF.2.1 hWF.2.2 id pid pl now hk
  refine ⟨?_, ?_, ?_, ?_, ?_, ?_⟩
  · intro x; rw [envelopeDecrypt_ignores_id]; exact hdec
  · intro x; rw [envelopeDecrypt_ignores_createdAt]; exact hdec
  · intro x; rw [envelopeDecrypt_ignores_alg]; exact hdec
  · intro n' hn' hne
    exact envelopeDecrypt_mut_payload_nonce hWF.2.1 hWF.2.2 id pid pl now hk n'
      hn' (by simpa [encRecord] using hne)
  · intro n' hn' hne
    exact envelopeDecrypt_mut_dek_wrap_nonce hWF.2.1 hWF.2.2 id pid pl now hk n'
      hn' (by simpa [encRecord] using hne)
  · intro w hw
    exact envelopeDecrypt_mut_mk_version hWF.2.1 hWF.2.2 id pid pl now reg mk
      (getLatestVersion reg) w hw

theorem c4_mutation_amended_witness :
    envelopeDecrypt reg0 { r0 with createdAt := "1999-01-01" } = .ok pl0 ∧
    envelopeDecrypt reg0 { r0 with alg := "ROT13" } = .ok pl0 ∧
    envelopeDecrypt reg0
        { r0 with payload_nonce := rawBytes (List.replicate 12 5) } =
      .error .authenticationFailed ∧
    envelopeDecrypt reg0 { r0 with mk_version := 9 } =
      .error (.unknownKeyVersion 9) := by
  have h := c4_mutation_amended reg0 rnd0 "tx-1" "party-1" pl0 "2026-01-01" r0
    (by decide) rfl
  exact ⟨h.2.1 "1999-01-01", h.2.2.1 "ROT13",
    h.2.2.2.1 (rawBytes (List.replicate 12 5)) (by decide) (by decide),
    h.2.2.2.2.2 9 (by decide)⟩

/-- Claim C5: `getLatestVersion` returns the maximum version present in
the registry; every successful `encrypt` stamps the record with it; for a
registry holding versions `{1, 2}`, records produced under version 1 or
version 2 both decrypt correctly and every new encryption selects 2. -/
theorem c5_latest_version_rotation :
    (∀ reg : KeyRegistry, reg ≠ [] →
        getLatestVersion reg ∈ regVersions reg ∧
        ∀ v ∈ regVersions reg, v ≤ getLatestVersion reg) ∧
    (∀ (reg : KeyRegistry) (rnd : EncRandom) (id pid : String) (pl : ByteS)
        (now : String) (r : TxSecureRecord),
        envelopeEncrypt reg rnd id pid pl now = .ok r →
        r.mk_version = getLatestVersion reg) ∧
    (∀ key1 key2 : ByteS, getLatestVersion [(1, key1), (2, key2)] = 2) ∧
    (∀ (key1 key2 : ByteS) (rnd : EncRandom) (id pid : String) (pl : ByteS)
        (now : String) (r : TxSecureRecord), rnd.WF →
        envelopeEncrypt [(1, key1)] rnd id pid pl now = .ok r →
        txDecryptResult [(1, key1), (2, key2)] r = .ok ⟨id, pid, pl⟩) ∧
    (∀ (key1 key2 : ByteS) (rnd : EncRandom) (id pid : String) (pl : ByteS)
        (now : String) (r : TxSecureRecord), rnd.WF →
        envelopeEncrypt [(1, key1), (2, key2)] rnd id pid pl now = .ok r →
        r.mk_version = 2 ∧
          txDecryptResult [(1, key1), (2, key2)] r = .ok ⟨id, pid, pl⟩) := by
  refine ⟨fun reg h => ⟨latest_mem h, fun v hv => le_latest hv⟩, ?_, ?_, ?_, ?_⟩
  · intro reg rnd id pid pl now r henc
    obtain ⟨mk, -, hr⟩ := envelopeEncrypt_ok_elim henc
    subst hr
    rfl
  · intro key1 key2; rfl
  · intro key1 key2 rnd id pid pl now r hWF henc
    obtain ⟨mk, hmk, hr⟩ := envelopeEncrypt_ok_elim henc
    have hmk' : mk = key1 := by
      have := getKey_ok_lookup hmk
      simp [regLookup, getLatestVersion, regVersions] at this
      exact this.symm
    rw [hmk'] at hr
    subst hr
    have hk2 : regLookup [(1, key1), (2, key2)] (getLatestVersion [(1, key1)]) =
        some key1 := by
      simp [regLookup, getLatestVersion, regVersions]
    rw [txDecryptResult, envelopeDecrypt_encRecord hWF.2.1 hWF.2.2 id pid pl now hk2]
    simp [encRecord]
  · intro key1 key2 rnd id pid pl now r hWF henc
    obtain ⟨mk, hmk, hr⟩ := envelopeEncrypt_ok_elim henc
    have hmk' : mk = key2 := by
      have := getKey_ok_lookup hmk
      simp [regLookup, getLatestVersion, regVersions] at this
      exact this.symm
    rw [hmk'] at hr
    subst hr
    have hk2 : regLookup [(1, key1), (2, key2)]
        (getLatestVersion [(1, key1), (2, key2)]) = some key2 := by
      simp [regLookup, getLatestVersion, regVersions]
    refine ⟨rfl, ?_⟩
    rw [txDecryptResult, envelopeDecrypt_encRecord hWF.2.1 hWF.2.2 id pid pl now hk2]
    simp [encRecord]

theorem c5_latest_version_rotation_witness :
    (getLatestVersion reg0 ∈ regVersions reg0 ∧
      ∀ v ∈ regVersions reg0, v ≤ getLatestVersion reg0) ∧
    getLatestVersion [(1, k0), (2, kB)] = 2 ∧
    txDecryptResult [(1, k0), (2, kB)] r0 = .ok ⟨"tx-1", "party-1", pl0⟩ :=
  ⟨c5_latest_version_rotation.1 reg0 (by decide),
    c5_latest_version_rotation.2.2.1 k0 kB,
    c5_latest_version_rotation.2.2.2.1 k0 kB rnd0 "tx-1" "party-1" pl0
      "2026-01-01" r0 (by decide) rfl⟩

/-- Claim C6: `getKey` fails with `UnknownKeyVersion` exactly when the
version is absent from the registry and returns the stored key otherwise;
consequently a record encrypted under version N, decrypted with a registry
that does not contain N, fails with `UnknownKeyVersion`. -/
theorem c6_unknown_key_version :
    (∀ (reg : KeyRegistry) (v : Nat),
        (regLookup reg v = none ∧
          getKey reg v = .error (.unknownKeyVersion v)) ∨
        (∃ k, regLookup reg v = some k ∧ getKey reg v = .ok k)) ∧
    (∀ (reg reg' : KeyRegistry) (rnd : EncRandom) (id pid : String)
        (pl : ByteS) (now : String) (r : TxSecureRecord), rnd.WF →
        envelopeEncrypt reg rnd id pid pl now = .ok r →
        regLookup reg' r.mk_version = none →
        envelopeDecrypt reg' r = .error (.unknownKeyVersion r.mk_version)) := by
  constructor
  · intro reg v
    rcases h : regLookup reg v with _ | k
    · exact Or.inl ⟨rfl, by rw [getKey, h]⟩
    · exact Or.inr ⟨k, rfl, by rw [getKey, h]⟩
  · intro reg reg' rnd id pid pl now r hWF henc hnone
    obtain ⟨mk, -, hr⟩ := envelopeEncrypt_ok_elim henc
    subst hr
    have hnone' : regLookup reg' (getLatestVersion reg) = none := hnone
    exact envelopeDecrypt_mut_mk_version hWF.2.1 hWF.2.2 id pid pl now reg' mk
      (getLatestVersion reg) (getLatestVersion reg) hnone'

theorem c6_unknown_key_version_witness :
    ((regLookup reg0 3 = none ∧
        getKey reg0 3 = .error (.unknownKeyVersion 3)) ∨
      (∃ k, regLookup reg0 3 = some k ∧ getKey reg0 3 = .ok k)) ∧
    envelopeDecrypt [(5, kB)] r0 = .error (.unknownKeyVersion r0.mk_version) :=
  ⟨c6_unknown_key_version.1 reg0 3,
    c6_unknown_key_version.2 reg0 [(5, kB)] rnd0 "tx-1" "party-1" pl0
      "2026-01-01" r0 (by decide) rfl (by decide)⟩

/-- Claim C7 counterexample: the versioned-key pattern admits version 0 —
`buildKeyRegistry` happily constructs a registry whose only version is the
non-positive integer 0 from `MASTER_KEY_V0`. -/
theorem c7_counterexample :
    buildKeyRegistry [("MASTER_KEY_V0", z64)] = .ok [(0, rawBytes zkey)] ∧
    0 ∈ regVersions [(0, rawBytes zkey)] ∧ ¬ 0 < 0 :=
  ⟨rfl, by decide, by decide⟩

/-- Claim C7 (amended): every registry `buildKeyRegistry` constructs is
non-empty and maps (possibly zero) integer versions to keys of exactly 32
bytes; when no configuration entry matches the versioned pattern and the
legacy name is absent, construction fails with `NoKeysConfigured`. -/
theorem c7_registry_invariant_amended :
    (∀ (env : List (String × String)) (reg : KeyRegistry),
        buildKeyRegistry env = .ok reg →
        reg ≠ [] ∧ ∀ p ∈ reg, ∃ raw, p.2 = rawBytes raw ∧ raw.length = 32) ∧
    (∀ env : List (String × String),
        (∀ p ∈ env, versionedKeyName p.1 = none) →
        envLookup env "MASTER_KEY" = none →
        buildKeyRegistry env = .error .noKeysConfigured) :=
  ⟨fun _ _ h => buildKeyRegistry_ok_inv h, fun _ hm hl => buildKeyRegistry_noKeys hm hl⟩

theorem c7_registry_invariant_amended_witness :
    ([(1, rawBytes zkey)] ≠ ([] : KeyRegistry) ∧
      ∀ p ∈ ([(1, rawBytes zkey)] : KeyRegistry),
        ∃ raw, p.2 = rawBytes raw ∧ raw.length = 32) ∧
    buildKeyRegistry [("OTHER", "x")] = .error .noKeysConfigured :=
  ⟨c7_registry_invariant_amended.1 [("MASTER_KEY_V1", z64)] [(1, rawBytes zkey)] rfl,
    c7_registry_invariant_amended.2 [("OTHER", "x")] (by decide) (by decide)⟩

/-- Claim C8: a registry built from a configuration holding only the legacy
unversioned key name bound to a valid 32-byte key string is the very same
registry as one built from only the versioned name for version 1 bound to
that string — hence `latestVersion`, `get`, `encrypt` and `decrypt` behave
identically on the two. -/
theorem c8_legacy_fallback (s : String) (b : List Nat)
    (h : validateHex s "MASTER_KEY" (some 32) = .ok b) :
    buildKeyRegistry [("MASTER_KEY", s)] = .ok [(1, rawBytes b)] ∧
    buildKeyRegistry [("MASTER_KEY_V1", s)] = .ok [(1, rawBytes b)] ∧
    buildKeyRegistry [("MASTER_KEY", s)] =
      buildKeyRegistry [("MASTER_KEY_V1", s)] := by
  have hs : s ≠ "" := by
    intro he
    subst he
    obtain ⟨-, hb, hlen⟩ := validateHex_ok_inv h
    have h32 := hlen 32 rfl
    rw [hb] at h32
    simp [hexPairsToBytes] at h32
  have h1 : buildKeyRegistry [("MASTER_KEY", s)] = .ok [(1, rawBytes b)] := by
    have hbe : buildEntries [("MASTER_KEY", s)] = .ok [] := by
      rw [buildEntries, show versionedKeyName "MASTER_KEY" = none from rfl]
      rfl
    have henv : envLookup [("MASTER_KEY", s)] "MASTER_KEY" = some s := rfl
    simp [buildKeyRegistry, hbe, henv, hs, h]
  have h2 : buildKeyRegistry [("MASTER_KEY_V1", s)] = .ok [(1, rawBytes b)] := by
    have hv2 := validateHex_label_eq ("MASTER_KEY_V" ++ toString 1) h
    have hbe : buildEntries [("MASTER_KEY_V1", s)] = .ok [(1, rawBytes b)] := by
      rw [buildEntries, show versionedKeyName "MASTER_KEY_V1" = some 1 from rfl]
      simp [hs, hv2, buildEntries]
    simp [buildKeyRegistry, hbe]
  exact ⟨h1, h2, h1.trans h2.symm⟩

theorem c8_legacy_fallback_witness :
    buildKeyRegistry [("MASTER_KEY", z64)] = .ok [(1, rawBytes zkey)] ∧
    buildKeyRegistry [("MASTER_KEY_V1", z64)] = .ok [(1, rawBytes zkey)] ∧
    buildKeyRegistry [("MASTER_KEY", z64)] =
      buildKeyRegistry [("MASTER_KEY_V1", z64)] :=
  c8_legacy_fallback z64 zkey rfl

/-- Claim C9: two `encrypt` calls with identical registry, id, partyId and
payload but fresh, independently drawn randomness (modelled as: the drawn
DEKs and nonces differ) produce records whose nonce and ciphertext fields
are never byte-for-byte identical.  The payload is non-empty, as the JSON
serialization of an object always is. -/
theorem c9_fresh_randomness (reg : KeyRegistry) (rnd1 rnd2 : EncRandom)
    (id pid : String) (pl : ByteS) (now1 now2 : String)
    (r1 r2 : TxSecureRecord)
    (hWF1 : rnd1.WF) (hWF2 : rnd2.WF) (hpl : pl ≠ [])
    (hdek : rnd1.dek ≠ rnd2.dek)
    (hpn : rnd1.payloadNonce ≠ rnd2.payloadNonce)
    (hdn : rnd1.dekNonce ≠ rnd2.dekNonce)
    (h1 : envelopeEncrypt reg rnd1 id pid pl now1 = .ok r1)
    (h2 : envelopeEncrypt reg rnd2 id pid pl now2 = .ok r2) :
    r1.payload_nonce ≠ r2.payload_nonce ∧ r1.payload_ct ≠ r2.payload_ct ∧
    r1.dek_wrap_nonce ≠ r2.dek_wrap_nonce ∧ r1.dek_wrapped ≠ r2.dek_wrapped := by
  obtain ⟨mk1, -, e1⟩ := envelopeEncrypt_ok_elim h1
  obtain ⟨mk2, -, e2⟩ := envelopeEncrypt_ok_elim h2
  subst e1; subst e2
  have hd1 : rnd1.dek ≠ [] := ne_nil_of_length_pos hWF1.1 (by decide)
  have hd2 : rnd2.dek ≠ [] := ne_nil_of_length_pos hWF2.1 (by decide)
  refine ⟨by simpa [encRecord] using hpn, ?_, by simpa [encRecord] using hdn, ?_⟩
  · show ctBytes rnd1.dek rnd1.payloadNonce pl ≠ ctBytes rnd2.dek rnd2.payloadNonce pl
    intro h
    exact hpn (ctBytes_head_inj hpl hpl h).2.1
  · show ctBytes mk1 rnd1.dekNonce rnd1.dek ≠ ctBytes mk2 rnd2.dekNonce rnd2.dek
    intro h
    exact hdn (ctBytes_head_inj hd1 hd2 h).2.1

theorem c9_fresh_randomness_witness :
    r0.payload_nonce ≠ (encRecord rndB "tx-1" "party-1" pl0 "2026-01-02" k0 1).payload_nonce ∧
    r0.payload_ct ≠ (encRecord rndB "tx-1" "party-1" pl0 "2026-01-02" k0 1).payload_ct ∧
    r0.dek_wrap_nonce ≠ (encRecord rndB "tx-1" "party-1" pl0 "2026-01-02" k0 1).dek_wrap_nonce ∧
    r0.dek_wrapped ≠ (encRecord rndB "tx-1" "party-1" pl0 "2026-01-02" k0 1).dek_wrapped :=
  c9_fresh_randomness reg0 rnd0 rndB "tx-1" "party-1" pl0 "2026-01-01"
    "2026-01-02" r0 (encRecord rndB "tx-1" "party-1" pl0 "2026-01-02" k0 1)
    (by decide) (by decide) (by decide) (by decide) (by decide) (by decide)
    rfl rfl

end Crypto
